import Mathlib

/-!  Verification of the pond-filter aggregation pipeline (build_filters.py).

The Python source is embedded shallowly:
* Python floats are modelled as exact rationals `ℚ` (arithmetic idealised:
  no binary rounding error, no inf/nan).
* Python dicts are modelled as insertion-ordered association lists
  `List (String × α)`; `dict.get` is `alookup`/`pget`, and the
  `dict.setdefault` + in-place mutation pattern of the source is `upsert`
  (replace the entry in place if the key exists, else append).
* Loosely typed Python property values are `PyVal`; Python truthiness is
  `truthy`, `float(...)` coercion is `pyFloat` (`Option.none` for a raised
  `TypeError`/`ValueError`), and the one operation of the feature
  normaliser that can raise (`str.strip` on a truthy non-string value)
  surfaces as `Except PyErr`.
* The `Node` class of the source stores a `regions` dict (used only at
  country level) and a `places` dict (used only at region level); the
  embedding splits it into `CountryNode`/`RegionNode`/`PlaceNode` sharing
  the common `Stats` fields, which is the same data with the dead dict of
  each level dropped.
-/

namespace Pond

/-- Bounding box `(minLng, minLat, maxLng, maxLat)`, as in the source's
`[lng, lat, lng, lat]` list. -/
abbrev BBox := ℚ × ℚ × ℚ × ℚ

/-- The shared statistics fields of the source's `Node` class. -/
structure Stats where
  count : ℕ
  area : ℚ
  bbox : Option BBox
  sum_lng : ℚ
  sum_lat : ℚ
  has_center : ℕ
deriving DecidableEq

/-- `Node.__init__`: all statistics start at zero / absent. -/
def initStats : Stats := ⟨0, 0, Option.none, 0, 0, 0⟩

/-- The bbox expansion of `update_node`: initialize to the point when absent,
else componentwise min/max against the point. -/
def expandBBox : Option BBox → ℚ → ℚ → BBox
  | Option.none, ln, la => (ln, la, ln, la)
  | some (a, b, c, d), ln, la => (min a ln, min b la, max c ln, max d la)

/-- `update_node(node, lat, lng, area)` from build_filters.py:
count += 1; add area when present; when both coordinates are present,
accumulate centroid sums, bump `has_center` and expand the bbox. -/
def update_node (s : Stats) (lat lng area : Option ℚ) : Stats :=
  let s1 := { s with count := s.count + 1 }
  let s2 := match area with
    | some a => { s1 with area := s1.area + a }
    | Option.none => s1
  match lat, lng with
  | some la, some ln =>
      { s2 with
        sum_lat := s2.sum_lat + la
        sum_lng := s2.sum_lng + ln
        has_center := s2.has_center + 1
        bbox := some (expandBBox s2.bbox ln la) }
  | _, _ => s2

structure PlaceNode where
  name : String
  stats : Stats
deriving DecidableEq

structure RegionNode where
  name : String
  stats : Stats
  places : List (String × PlaceNode)
deriving DecidableEq

structure CountryNode where
  name : String
  stats : Stats
  regions : List (String × RegionNode)
deriving DecidableEq

def newPlace (n : String) : PlaceNode := ⟨n, initStats⟩

def newRegion (n : String) : RegionNode := ⟨n, initStats, []⟩

def newCountry (n : String) : CountryNode := ⟨n, initStats, []⟩

/-- Association-list lookup: first entry with the given key (Python dict
lookup; keys are unique in any dict built by the fold). -/
def alookup {α : Type} : List (String × α) → String → Option α
  | [], _ => Option.none
  | (k, v) :: rest, key => if k = key then some v else alookup rest key

/-- Replace the first entry with the given key in place, else append:
the net effect of `dict.setdefault` followed by mutating the entry. -/
def upsert {α : Type} : List (String × α) → String → α → List (String × α)
  | [], key, v => [(key, v)]
  | (k, w) :: rest, key, v =>
      if k = key then (k, v) :: rest else (k, w) :: upsert rest key v

/-- A normalized feature record, as produced by the per-feature
normalisation block of `build_filters`. -/
structure Record where
  country : String
  region : String
  place : String
  lat : Option ℚ
  lng : Option ℚ
  area : Option ℚ
deriving DecidableEq

abbrev CMap := List (String × CountryNode)

/-- The new value of the place node for `r.place`: the looked-up node (or a
fresh one when absent) with `update_node` applied. -/
def placeUpd (o : Option PlaceNode) (r : Record) : PlaceNode :=
  let pl := o.getD (newPlace r.place)
  { pl with stats := update_node pl.stats r.lat r.lng r.area }

/-- Get-or-create the place node for `r.place` and apply `update_node` to it
(the `places.setdefault` + `update_node(place_node, ...)` steps). -/
def updatePlace (places : List (String × PlaceNode)) (r : Record) :
    List (String × PlaceNode) :=
  upsert places r.place (placeUpd (alookup places r.place) r)

/-- The new value of the region node for `r.region`: `update_node` applied
to its stats and the record folded into its places. -/
def regionUpd (o : Option RegionNode) (r : Record) : RegionNode :=
  let reg := o.getD (newRegion r.region)
  { reg with
    stats := update_node reg.stats r.lat r.lng r.area
    places := updatePlace reg.places r }

/-- Get-or-create the region node for `r.region`, apply `update_node` to it
and fold the record into its places. -/
def updateRegion (regions : List (String × RegionNode)) (r : Record) :
    List (String × RegionNode) :=
  upsert regions r.region (regionUpd (alookup regions r.region) r)

/-- The new value of the country node for `r.country`. -/
def countryUpd (o : Option CountryNode) (r : Record) : CountryNode :=
  let c := o.getD (newCountry r.country)
  { c with
    stats := update_node c.stats r.lat r.lng r.area
    regions := updateRegion c.regions r }

/-- One iteration of the per-feature loop of `build_filters`: get-or-create
the country/region/place nodes named by the record and apply the identical
`update_node` to all three. -/
def foldRecord (st : CMap) (r : Record) : CMap :=
  upsert st r.country (countryUpd (alookup st r.country) r)

def foldRecs (st : CMap) : List Record → CMap
  | [] => st
  | r :: rs => foldRecs (foldRecord st r) rs

/-- Folding a whole stream of normalized records from the empty state. -/
def foldAll (rs : List Record) : CMap := foldRecs [] rs

/-- Loosely typed Python property values (the scalar values a vector-tile
feature's property mapping can hold). -/
inductive PyVal where
  | none
  | str (s : String)
  | int (n : ℤ)
  | float (q : ℚ)
  | bool (b : Bool)
deriving DecidableEq

inductive PyErr where
  | attributeError
deriving DecidableEq

abbrev Props := List (String × PyVal)

/-- Python `props.get(k)`: `None` when the key is absent. -/
def pget (props : Props) (k : String) : PyVal := (alookup props k).getD .none

/-- Python truthiness of a property value. -/
def truthy : PyVal → Bool
  | .none => false
  | .str s => !(s == "")
  | .int n => !(n == 0)
  | .float q => !(q == 0)
  | .bool b => b

/-- Python `a or b`: `a` when truthy, else `b`. -/
def pyOr (a b : PyVal) : PyVal := if truthy a then a else b

/-- Drop leading and trailing whitespace from a character list. -/
def stripChars (cs : List Char) : List Char :=
  ((cs.dropWhile Char.isWhitespace).reverse.dropWhile Char.isWhitespace).reverse

/-- Python `s.strip()` on a string (whitespace at both ends removed; the
ASCII whitespace characters are the ones that matter here). -/
def pyStripString (s : String) : String := String.mk (stripChars s.data)

/-- Python `v.strip()`: defined for strings, raises `AttributeError`
otherwise. -/
def pyStrip : PyVal → Except PyErr String
  | .str s => .ok (pyStripString s)
  | _ => .error .attributeError

def digitsVal (cs : List Char) : Option ℕ :=
  cs.foldl
    (fun acc c =>
      acc.bind (fun n => if c.isDigit then some (n * 10 + (c.toNat - 48)) else Option.none))
    (some 0)

/-- Model of Python `float(s)` on strings: optional surrounding whitespace,
optional sign, then a decimal literal (digits with an optional fractional
part).  Exotic accepted spellings (exponents, `inf`, `nan`) are outside the
model; every claim depends only on parse-success versus `ValueError`. -/
def parseFloat (s : String) : Option ℚ :=
  let t := stripChars s.data
  let sb : ℚ × List Char :=
    match t with
    | '-' :: rest => (-1, rest)
    | '+' :: rest => (1, rest)
    | _ => (1, t)
  match sb.2.splitOn '.' with
  | [ip] =>
      if ip.isEmpty then Option.none
      else (digitsVal ip).map (fun n => sb.1 * n)
  | [ip, fp] =>
      if ip.isEmpty && fp.isEmpty then Option.none
      else
        match digitsVal ip, digitsVal fp with
        | some a, some b => some (sb.1 * ((a : ℚ) + (b : ℚ) / (10 : ℚ) ^ fp.length))
        | _, _ => Option.none
  | _ => Option.none

/-- Model of Python `float(v)` under the source's
`try: float(x) if x is not None else None / except (TypeError, ValueError)`
pattern: `Option.none` is a degraded (absent) field, never an escape. -/
def pyFloat : PyVal → Option ℚ
  | .none => Option.none
  | .str s => parseFloat s
  | .int n => some (n : ℚ)
  | .float q => some q
  | .bool b => some (if b then 1 else 0)

/-- One name field of the normaliser:
`(props.get(k1) or props.get(k2) or "").strip() or fallback`. -/
def nameField (props : Props) (keys : List String) (fallback : String) :
    Except PyErr String := do
  let s ← pyStrip ((keys.map (pget props)).foldr pyOr (.str ""))
  pure (if s = "" then fallback else s)

/-- The Feature Normalizer: the per-feature normalisation block of
`build_filters` (lines 77-96 of build_filters.py). -/
def normalize (props : Props) : Except PyErr Record := do
  let country ← nameField props ["country"] "Sin país"
  let region ← nameField props ["region", "district"] "Sin región"
  let place ← nameField props ["place", "label"] "Sin lugar"
  pure ⟨country, region, place,
        pyFloat (pyOr (pget props "centroid_lat") (pget props "lat")),
        pyFloat (pyOr (pget props "centroid_lng") (pget props "lng")),
        pyFloat (pyOr (pget props "area") (pget props "area_ha"))⟩

/-- One tile of the archive after the Tile Source / Decoder collaborators:
`corrupt` is a payload whose decompression or decode raises, `decoded l`
carries the configured layer's feature property mappings (`Option.none`
when the layer is absent or falsy). -/
inductive Tile where
  | corrupt
  | decoded (layer : Option (List Props))

def foldFeatures (st : CMap) : List Props → Except PyErr CMap
  | [] => .ok st
  | p :: ps => do
      let r ← normalize p
      foldFeatures (foldRecord st r) ps

/-- Per-tile processing of `build_filters`: a corrupt tile is skipped
(`except Exception: continue`), a missing/falsy layer is skipped, otherwise
every feature of the layer is normalized and folded. -/
def foldTile (st : CMap) : Tile → Except PyErr CMap
  | .corrupt => .ok st
  | .decoded Option.none => .ok st
  | .decoded (some feats) => foldFeatures st feats

/-- The tile loop of `build_filters` over a whole archive. -/
def buildTiles (st : CMap) : List Tile → Except PyErr CMap
  | [] => .ok st
  | t :: ts =>
      match foldTile st t with
      | .error e => .error e
      | .ok st2 => buildTiles st2 ts

/-- Round-half-to-even to an integer (Python's rounding mode). -/
def roundHalfEven (x : ℚ) : ℤ :=
  let f := Int.floor x
  let r := x - (f : ℚ)
  if r < 1 / 2 then f
  else if 1 / 2 < r then f + 1
  else if f % 2 = 0 then f else f + 1

/-- Model of Python `round(v, 6)`: banker's rounding at 6 decimal places,
idealised to exact rationals. -/
def round6 (x : ℚ) : ℚ := ((roundHalfEven (x * 1000000) : ℤ) : ℚ) / 1000000

/-- The fields the serializer emits for one node (children aside):
`bbox`/`center` are the optional entries of the emitted dict. -/
structure SerNode where
  name : String
  count : ℕ
  area : ℚ
  bbox : Option (List ℚ)
  center : Option (List ℚ)
deriving DecidableEq

/-- The childless part of `serialize(node, level)`: name, count, rounded
area, then `bbox` only when the accumulated bbox is present (truthy) and
`center` only when `has_center` is nonzero. -/
def serStats (name : String) (s : Stats) : SerNode :=
  { name := name
    count := s.count
    area := round6 s.area
    bbox :=
      match s.bbox with
      | some (a, b, c, d) => some [round6 a, round6 b, round6 c, round6 d]
      | Option.none => Option.none
    center :=
      if s.has_center ≠ 0 then
        some [round6 (s.sum_lng / (s.has_center : ℚ)),
              round6 (s.sum_lat / (s.has_center : ℚ))]
      else Option.none }

/-- Key order used by the serializer: `sorted(dict.items())` compares the
name keys first (they are unique, so the comparison never reaches the
values). -/
def keyLE {α : Type} (a b : String × α) : Prop := a.1 ≤ b.1

instance {α : Type} : DecidableRel (@keyLE α) :=
  fun a b => inferInstanceAs (Decidable (a.1 ≤ b.1))

instance {α : Type} : IsTotal (String × α) keyLE :=
  ⟨fun a b => le_total a.1 b.1⟩

instance {α : Type} : IsTrans (String × α) keyLE :=
  ⟨fun _ _ _ h1 h2 => le_trans h1 h2⟩

/-- Strict key order: what "ascending lexicographic order of the name key"
means for an emitted child mapping (keys are unique, so sorted output is
strictly increasing). -/
def keyLT {α : Type} (a b : String × α) : Prop := a.1 < b.1

instance {α : Type} : IsAntisymm (String × α) keyLT :=
  ⟨fun _ _ h1 h2 => absurd h2 (lt_asymm h1)⟩

/-- `sorted(d.items())` of the serializer. -/
def sortByKey {α : Type} (l : List (String × α)) : List (String × α) :=
  l.insertionSort keyLE

def serializePlace (p : PlaceNode) : SerNode := serStats p.name p.stats

structure SerRegion where
  base : SerNode
  places : List (String × SerNode)
deriving DecidableEq

/-- `serialize(node, "region")`. -/
def serializeRegion (r : RegionNode) : SerRegion :=
  ⟨serStats r.name r.stats,
   (sortByKey r.places).map (fun q => (q.1, serializePlace q.2))⟩

structure SerCountry where
  base : SerNode
  regions : List (String × SerRegion)
deriving DecidableEq

/-- `serialize(node, "country")`. -/
def serializeCountry (c : CountryNode) : SerCountry :=
  ⟨serStats c.name c.stats,
   (sortByKey c.regions).map (fun q => (q.1, serializeRegion q.2))⟩

/-- The `countries` mapping of the top-level output document. -/
def serializeAll (st : CMap) : List (String × SerCountry) :=
  (sortByKey st).map (fun q => (q.1, serializeCountry q.2))

/-- The full output document of `build_filters`. -/
structure Output where
  generated_from : String
  layer : String
  countries : List (String × SerCountry)
deriving DecidableEq

def PMTILES_NAME : String := "piscinas.pmtiles"

def LAYER_NAME : String := "piscinas_merged"

def outputOf (st : CMap) : Output := ⟨PMTILES_NAME, LAYER_NAME, serializeAll st⟩

/-! Derived notions used to state the claims. -/

/-- A bbox contains the point `(lng, lat)`. -/
def bboxContains (bb : BBox) (ln la : ℚ) : Prop :=
  bb.1 ≤ ln ∧ ln ≤ bb.2.2.1 ∧ bb.2.1 ≤ la ∧ la ≤ bb.2.2.2

/-- `old` lies inside `new`: min bounds did not increase, max bounds did not
decrease. -/
def bboxIncl (old new : BBox) : Prop :=
  new.1 ≤ old.1 ∧ new.2.1 ≤ old.2.1 ∧ old.2.2.1 ≤ new.2.2.1 ∧ old.2.2.2 ≤ new.2.2.2

/-- Sum of a measure over the values of an association list. -/
def sumBy {α β : Type} [AddCommMonoid β] (l : List (String × α)) (f : α → β) : β :=
  (l.map (fun p => f p.2)).sum

/-- The contribution of one record to a node's running area sum. -/
def areaDelta (a : Option ℚ) : ℚ := a.getD 0

/-- Per-level additivity of a region node: its count and area are the sums
over its place children. -/
def regionAdd (r : RegionNode) : Prop :=
  r.stats.count = sumBy r.places (fun p => p.stats.count) ∧
  r.stats.area = sumBy r.places (fun p => p.stats.area)

/-- Per-level additivity of a country node, recursively down to places. -/
def countryAdd (c : CountryNode) : Prop :=
  c.stats.count = sumBy c.regions (fun r => r.stats.count) ∧
  c.stats.area = sumBy c.regions (fun r => r.stats.area) ∧
  ∀ p ∈ c.regions, regionAdd p.2

/-- The per-node safety invariant: `has_center` never exceeds `count` and
the bbox is present exactly when some coordinate pair arrived. -/
def statsInv (s : Stats) : Prop :=
  s.has_center ≤ s.count ∧ (s.bbox.isSome ↔ 0 < s.has_center)

/-- `P` holds for the statistics of every node of the tree, at all three
levels. -/
def treeAllStats (P : Stats → Prop) (st : CMap) : Prop :=
  ∀ p ∈ st, P p.2.stats ∧
    ∀ q ∈ p.2.regions, P q.2.stats ∧
      ∀ w ∈ q.2.places, P w.2.stats

/-- The keys of an association list are pairwise distinct. -/
def keysNodup {α : Type} (l : List (String × α)) : Prop :=
  (l.map Prod.fst).Nodup

/-- Key uniqueness at every level of the tree. -/
def treeKeysNodup (st : CMap) : Prop :=
  keysNodup st ∧
  ∀ p ∈ st, keysNodup p.2.regions ∧
    ∀ q ∈ p.2.regions, keysNodup q.2.places

/-- What C10 asserts of the serializer's per-node emission for a node with
statistics `s`: `center` is present iff `has_center > 0`, and then is the
componentwise-rounded arithmetic mean `[sumLng/n, sumLat/n]`; `bbox` is
present iff `has_center > 0` (iff a coordinate pair ever arrived), each
component rounded. -/
def serOK (name : String) (s : Stats) : Prop :=
  ((serStats name s).center ≠ Option.none ↔ 0 < s.has_center) ∧
  (0 < s.has_center →
    (serStats name s).center =
      some [round6 (s.sum_lng / (s.has_center : ℚ)),
            round6 (s.sum_lat / (s.has_center : ℚ))]) ∧
  ((serStats name s).bbox ≠ Option.none ↔ 0 < s.has_center) ∧
  (∀ a b c d, s.bbox = some (a, b, c, d) →
    (serStats name s).bbox = some [round6 a, round6 b, round6 c, round6 d])

/-- The area of the country node named `n` (0 when the node is absent). -/
def areaC (st : CMap) (n : String) : ℚ :=
  ((alookup st n).map (fun c => c.stats.area)).getD 0

/-- The area of region `m` under country `n`. -/
def areaR (st : CMap) (n m : String) : ℚ :=
  (((alookup st n).bind (fun c => alookup c.regions m)).map
    (fun r => r.stats.area)).getD 0

/-- The area of place `q` under region `m` under country `n`. -/
def areaP (st : CMap) (n m q : String) : ℚ :=
  ((((alookup st n).bind (fun c => alookup c.regions m)).bind
      (fun r => alookup r.places q)).map (fun p => p.stats.area)).getD 0

/-- The area values supplied by the records of `rs` satisfying `P`. -/
def suppliedAreas (rs : List Record) (P : Record → Bool) : List ℚ :=
  (rs.filter P).filterMap (fun r => r.area)

/-- Record-at-a-time sum of the area contributions of the records
satisfying `P`. -/
def areaSum (P : Record → Bool) : List Record → ℚ
  | [] => 0
  | r :: rs => (if P r then areaDelta r.area else 0) + areaSum P rs

/-- The area of the region named `m` in a region mapping (0 if absent). -/
def rAreaIn (regions : List (String × RegionNode)) (m : String) : ℚ :=
  ((alookup regions m).map (fun x => x.stats.area)).getD 0

/-- The area of the place named `q` in a place mapping (0 if absent). -/
def pAreaIn (places : List (String × PlaceNode)) (q : String) : ℚ :=
  ((alookup places q).map (fun x => x.stats.area)).getD 0

/-- The area of place `q` of region `m` in a region mapping (0 if absent). -/
def rpAreaIn (regions : List (String × RegionNode)) (m q : String) : ℚ :=
  ((alookup regions m).map (fun x => pAreaIn x.places q)).getD 0

/-- A property value on which the normaliser's name handling cannot raise:
a string, or a falsy value (which the `or` chain skips). -/
def strOrFalsy : PyVal → Bool
  | .str _ => true
  | v => !truthy v

/-- Modelled from the spec: "accept the first present candidate key" — the
spec's reading of numeric-field extraction, used to compare against the
source's `or`-chain.  A key is present when the mapping has it. -/
def specFirstPresent (props : Props) : List String → Option PyVal
  | [] => Option.none
  | k :: ks =>
      match alookup props k with
      | some v => some v
      | Option.none => specFirstPresent props ks

/-- Modelled from the spec: numeric field extraction that coerces the first
present candidate key's value, absent on coercion failure. -/
def specNumField (props : Props) (keys : List String) : Option ℚ :=
  (specFirstPresent props keys).bind pyFloat

/-! Concrete inputs used by witnesses and counterexamples. -/

def c2rs : List Record :=
  [⟨"Chile", "RM", "Maipú", some (-33.5 : ℚ), some (-70.7 : ℚ), some 120⟩,
   ⟨"Chile", "RM", "Santiago", Option.none, Option.none, some 50⟩]

def c2node : CountryNode := (alookup (foldAll c2rs) "Chile").getD (newCountry "Chile")

def c3props : Props := [("country", PyVal.str "X")]

def c3rec : Record :=
  ⟨"X", "Sin región", "Sin lugar", Option.none, Option.none, Option.none⟩

def c3country : CountryNode := (alookup (foldAll [c3rec]) "X").getD (newCountry "X")

def c3wprops : Props := [("country", PyVal.str "Y"), ("place", PyVal.str "P")]

def c3wrec : Record :=
  ⟨"Y", "Sin región", "P", Option.none, Option.none, Option.none⟩

def c5propsA : Props := [("centroid_lat", PyVal.int 0), ("lat", PyVal.int 5)]

def c5propsB : Props := [("centroid_lat", PyVal.int 0), ("lat", PyVal.int 7)]

def c5recA : Record :=
  ⟨"Sin país", "Sin región", "Sin lugar", some 5, Option.none, Option.none⟩

def c4wprops : Props := [("country", PyVal.str "X"), ("area", PyVal.str "abc")]

def c6props : Props := [("country", PyVal.str "A"), ("area", PyVal.int (-1))]

def c6rec : Record :=
  ⟨"A", "Sin región", "Sin lugar", Option.none, Option.none, some (-1 : ℚ)⟩

def c6node : CountryNode := (alookup (foldAll [c6rec]) "A").getD (newCountry "A")

def c7rs : List Record :=
  [⟨"A", "B", "C", some 1, some 2, Option.none⟩,
   ⟨"A", "B", "D", Option.none, Option.none, some 3⟩]

def c7node : CountryNode := (alookup (foldAll c7rs) "A").getD (newCountry "A")

def c8st1 : CMap := [("b", newCountry "b"), ("a", newCountry "a")]

def c8st2 : CMap := [("a", newCountry "a"), ("b", newCountry "b")]

def c10node : CountryNode := (alookup (foldAll c7rs) "A").getD (newCountry "A")

end Pond

namespace Pond

/-! Association-list facts. -/

theorem alookup_upsert_self {α : Type} (l : List (String × α)) (k : String) (v : α) :
    alookup (upsert l k v) k = some v := by
  induction l with
  | nil => simp [upsert, alookup]
  | cons hd tl ih =>
      obtain ⟨k1, v1⟩ := hd
      by_cases h : k1 = k
      · simp [upsert, h, alookup]
      · simp [upsert, h, alookup, ih]

theorem alookup_upsert_ne {α : Type} (l : List (String × α)) (k key : String) (v : α)
    (h : k ≠ key) : alookup (upsert l k v) key = alookup l key := by
  induction l with
  | nil => simp [upsert, alookup, h]
  | cons hd tl ih =>
      obtain ⟨k1, v1⟩ := hd
      by_cases h1 : k1 = k
      · subst h1
        simp [upsert, alookup, h]
      · simp [upsert, h1, alookup, ih]

theorem alookup_mem {α : Type} {l : List (String × α)} {k : String} {v : α}
    (h : alookup l k = some v) : (k, v) ∈ l := by
  induction l with
  | nil => simp [alookup] at h
  | cons hd tl ih =>
      obtain ⟨k1, v1⟩ := hd
      by_cases h1 : k1 = k
      · subst h1
        simp [alookup] at h
        simp [h]
      · simp [alookup, h1] at h
        exact List.mem_cons_of_mem _ (ih h)

theorem upsert_of_lookup_none {α : Type} {l : List (String × α)} {k : String}
    (h : alookup l k = Option.none) (v : α) : upsert l k v = l ++ [(k, v)] := by
  induction l with
  | nil => simp [upsert]
  | cons hd tl ih =>
      obtain ⟨k1, v1⟩ := hd
      by_cases h1 : k1 = k
      · simp [alookup, h1] at h
      · simp [alookup, h1] at h
        simp [upsert, h1, ih h]

theorem lookup_some_decomp {α : Type} {l : List (String × α)} {k : String} {w : α}
    (h : alookup l k = some w) :
    ∃ l1 l2, l = l1 ++ (k, w) :: l2 ∧ alookup l1 k = Option.none ∧
      ∀ v, upsert l k v = l1 ++ (k, v) :: l2 := by
  induction l with
  | nil => simp [alookup] at h
  | cons hd tl ih =>
      obtain ⟨k1, v1⟩ := hd
      by_cases h1 : k1 = k
      · subst h1
        simp [alookup] at h
        subst h
        exact ⟨[], tl, by simp, by simp [alookup], fun v => by simp [upsert]⟩
      · simp [alookup, h1] at h
        obtain ⟨l1, l2, hl, hnone, hup⟩ := ih h
        refine ⟨(k1, v1) :: l1, l2, by simp [hl], by simp [alookup, h1, hnone], ?_⟩
        intro v
        simp [upsert, h1, hup v]

theorem mem_upsert {α : Type} {l : List (String × α)} {k : String} {v : α} {p : String × α}
    (hp : p ∈ upsert l k v) : p ∈ l ∨ p = (k, v) := by
  induction l with
  | nil => simp [upsert] at hp; simp [hp]
  | cons hd tl ih =>
      obtain ⟨k1, v1⟩ := hd
      by_cases h1 : k1 = k
      · subst h1
        simp [upsert] at hp
        rcases hp with h | h
        · exact Or.inr (by simp [h])
        · exact Or.inl (List.mem_cons_of_mem _ h)
      · simp [upsert, h1] at hp
        rcases hp with h | h
        · exact Or.inl (by simp [h])
        · rcases ih h with h2 | h2
          · exact Or.inl (List.mem_cons_of_mem _ h2)
          · exact Or.inr h2

/-! `update_node` facts. -/

theorem update_node_count (s : Stats) (lat lng area : Option ℚ) :
    (update_node s lat lng area).count = s.count + 1 := by
  cases lat <;> cases lng <;> cases area <;> simp [update_node]

theorem update_node_area (s : Stats) (lat lng area : Option ℚ) :
    (update_node s lat lng area).area = s.area + areaDelta area := by
  cases lat <;> cases lng <;> cases area <;> simp [update_node, areaDelta]

theorem update_node_both (s : Stats) (la ln : ℚ) (area : Option ℚ) :
    (update_node s (some la) (some ln) area).has_center = s.has_center + 1 ∧
    (update_node s (some la) (some ln) area).sum_lat = s.sum_lat + la ∧
    (update_node s (some la) (some ln) area).sum_lng = s.sum_lng + ln ∧
    (update_node s (some la) (some ln) area).bbox = some (expandBBox s.bbox ln la) := by
  cases area <;> simp [update_node]

theorem update_node_missing (s : Stats) (lat lng area : Option ℚ)
    (h : lat = Option.none ∨ lng = Option.none) :
    (update_node s lat lng area).has_center = s.has_center ∧
    (update_node s lat lng area).sum_lat = s.sum_lat ∧
    (update_node s lat lng area).sum_lng = s.sum_lng ∧
    (update_node s lat lng area).bbox = s.bbox := by
  rcases h with h | h <;> subst h <;> cases area <;>
    first
    | (cases lng <;> simp [update_node])
    | (cases lat <;> simp [update_node])

theorem expandBBox_contains (bb : Option BBox) (ln la : ℚ) :
    bboxContains (expandBBox bb ln la) ln la := by
  rcases bb with _ | ⟨a, b, c, d⟩ <;>
    simp [expandBBox, bboxContains, min_le_right, le_max_right]

theorem expandBBox_incl (old : BBox) (ln la : ℚ) :
    bboxIncl old (expandBBox (some old) ln la) := by
  obtain ⟨a, b, c, d⟩ := old
  simp [expandBBox, bboxIncl, min_le_left, le_max_left]

/-- C1: the per-node update increments `count` by exactly 1 unconditionally;
adds the record's area to the running area sum iff the area is present
(otherwise leaves it unchanged); and iff both coordinates are present it
expands (or initializes) the bbox to a box containing the point `(lng, lat)`
and enclosing the previous box, adds `lng`/`lat` to the centroid sums and
increments `has_center` — while if either coordinate is absent the bbox,
centroid sums and `has_center` are left unchanged. -/
theorem c1_update_node_correct (s : Stats) (lat lng area : Option ℚ) :
    (update_node s lat lng area).count = s.count + 1 ∧
    (∀ a, area = some a → (update_node s lat lng area).area = s.area + a) ∧
    (area = Option.none → (update_node s lat lng area).area = s.area) ∧
    (∀ la ln, lat = some la → lng = some ln →
      (update_node s lat lng area).has_center = s.has_center + 1 ∧
      (update_node s lat lng area).sum_lat = s.sum_lat + la ∧
      (update_node s lat lng area).sum_lng = s.sum_lng + ln ∧
      (update_node s lat lng area).bbox = some (expandBBox s.bbox ln la) ∧
      bboxContains (expandBBox s.bbox ln la) ln la ∧
      (∀ old, s.bbox = some old → bboxIncl old (expandBBox s.bbox ln la))) ∧
    ((lat = Option.none ∨ lng = Option.none) →
      (update_node s lat lng area).has_center = s.has_center ∧
      (update_node s lat lng area).sum_lat = s.sum_lat ∧
      (update_node s lat lng area).sum_lng = s.sum_lng ∧
      (update_node s lat lng area).bbox = s.bbox) := by
  refine ⟨update_node_count s lat lng area, ?_, ?_, ?_, update_node_missing s lat lng area⟩
  · intro a ha
    subst ha
    rw [update_node_area]
    rfl
  · intro ha
    subst ha
    rw [update_node_area, areaDelta]
    simp
  · intro la ln hla hln
    subst hla
    subst hln
    obtain ⟨h1, h2, h3, h4⟩ := update_node_both s la ln area
    exact ⟨h1, h2, h3, h4, expandBBox_contains s.bbox ln la,
      fun old hold => hold ▸ expandBBox_incl old ln la⟩

theorem sumBy_append {α β : Type} [AddCommMonoid β] (l1 l2 : List (String × α))
    (f : α → β) : sumBy (l1 ++ l2) f = sumBy l1 f + sumBy l2 f := by
  simp [sumBy]

theorem sumBy_upsert_update {α β : Type} [AddCommMonoid β] (l : List (String × α))
    (k : String) (g : Option α → α) (f : α → β) (d : β)
    (hsome : ∀ w, alookup l k = some w → f (g (some w)) = f w + d)
    (hnone : f (g Option.none) = d) :
    sumBy (upsert l k (g (alookup l k))) f = sumBy l f + d := by
  cases h : alookup l k with
  | none =>
      rw [upsert_of_lookup_none h, sumBy_append]
      simp [sumBy, hnone]
  | some w =>
      obtain ⟨l1, l2, hl, _, hup⟩ := lookup_some_decomp h
      rw [hup, hl]
      simp only [sumBy, List.map_append, List.sum_append, List.map_cons, List.sum_cons]
      rw [hsome w h]
      abel

theorem count_updatePlace (places : List (String × PlaceNode)) (r : Record) :
    sumBy (updatePlace places r) (fun p => p.stats.count) =
      sumBy places (fun p => p.stats.count) + 1 := by
  refine sumBy_upsert_update places r.place (fun o => placeUpd o r) _ 1 ?_ ?_
  · intro w _
    simp [placeUpd, update_node_count]
  · simp [placeUpd, newPlace, update_node_count, initStats]

theorem area_updatePlace (places : List (String × PlaceNode)) (r : Record) :
    sumBy (updatePlace places r) (fun p => p.stats.area) =
      sumBy places (fun p => p.stats.area) + areaDelta r.area := by
  refine sumBy_upsert_update places r.place (fun o => placeUpd o r) _ (areaDelta r.area) ?_ ?_
  · intro w _
    simp [placeUpd, update_node_area]
  · simp [placeUpd, newPlace, update_node_area, initStats]

theorem count_updateRegion (regions : List (String × RegionNode)) (r : Record) :
    sumBy (updateRegion regions r) (fun p => p.stats.count) =
      sumBy regions (fun p => p.stats.count) + 1 := by
  refine sumBy_upsert_update regions r.region (fun o => regionUpd o r) _ 1 ?_ ?_
  · intro w _
    simp [regionUpd, update_node_count]
  · simp [regionUpd, newRegion, update_node_count, initStats]

theorem area_updateRegion (regions : List (String × RegionNode)) (r : Record) :
    sumBy (updateRegion regions r) (fun p => p.stats.area) =
      sumBy regions (fun p => p.stats.area) + areaDelta r.area := by
  refine sumBy_upsert_update regions r.region (fun o => regionUpd o r) _ (areaDelta r.area) ?_ ?_
  · intro w _
    simp [regionUpd, update_node_area]
  · simp [regionUpd, newRegion, update_node_area, initStats]

theorem regionAdd_newRegion (n : String) : regionAdd (newRegion n) := by
  simp [regionAdd, newRegion, initStats, sumBy]

theorem countryAdd_newCountry (n : String) : countryAdd (newCountry n) := by
  simp [countryAdd, newCountry, initStats, sumBy]

theorem regionAdd_regionUpd (o : Option RegionNode) (r : Record)
    (h : ∀ w, o = some w → regionAdd w) : regionAdd (regionUpd o r) := by
  have hreg : regionAdd (o.getD (newRegion r.region)) := by
    cases o with
    | none => exact regionAdd_newRegion r.region
    | some w => exact h w rfl
  obtain ⟨hc, ha⟩ := hreg
  constructor
  · show (regionUpd o r).stats.count = _
    simp only [regionUpd]
    rw [update_node_count, count_updatePlace, hc]
  · show (regionUpd o r).stats.area = _
    simp only [regionUpd]
    rw [update_node_area, area_updatePlace, ha]

theorem countryAdd_countryUpd (o : Option CountryNode) (r : Record)
    (h : ∀ w, o = some w → countryAdd w) : countryAdd (countryUpd o r) := by
  have hcadd : countryAdd (o.getD (newCountry r.country)) := by
    cases o with
    | none => exact countryAdd_newCountry r.country
    | some w => exact h w rfl
  obtain ⟨h1, h2, h3⟩ := hcadd
  refine ⟨?_, ?_, ?_⟩
  · show (countryUpd o r).stats.count = _
    simp only [countryUpd]
    rw [update_node_count, count_updateRegion, h1]
  · show (countryUpd o r).stats.area = _
    simp only [countryUpd]
    rw [update_node_area, area_updateRegion, h2]
  · intro p hp
    simp only [countryUpd, updateRegion] at hp
    rcases mem_upsert hp with hmem | hpe
    · exact h3 p hmem
    · subst hpe
      exact regionAdd_regionUpd _ r (fun w hw => h3 (r.region, w) (alookup_mem hw))

theorem countryAdd_foldRecord (st : CMap) (r : Record)
    (h : ∀ p ∈ st, countryAdd p.2) : ∀ p ∈ foldRecord st r, countryAdd p.2 := by
  intro p hp
  simp only [foldRecord] at hp
  rcases mem_upsert hp with hmem | hpe
  · exact h p hmem
  · subst hpe
    exact countryAdd_countryUpd _ r (fun w hw => h (r.country, w) (alookup_mem hw))

theorem countryAdd_foldRecs (st : CMap) (rs : List Record)
    (h : ∀ p ∈ st, countryAdd p.2) : ∀ p ∈ foldRecs st rs, countryAdd p.2 := by
  induction rs generalizing st with
  | nil => simpa [foldRecs] using h
  | cons r rest ih =>
      intro p hp
      exact ih (foldRecord st r) (countryAdd_foldRecord st r h) p
        (by simpa [foldRecs] using hp)

/-- C2: after folding any stream of records, every country node's count and
area equal the sums over its region children, and every region node's count
and area equal the sums over its place children — each record applies the
identical update once at each of the three levels. -/
theorem c2_additivity (rs : List Record) (n : String) (c : CountryNode)
    (h : alookup (foldAll rs) n = some c) :
    c.stats.count = sumBy c.regions (fun reg => reg.stats.count) ∧
    c.stats.area = sumBy c.regions (fun reg => reg.stats.area) ∧
    ∀ p ∈ c.regions,
      p.2.stats.count = sumBy p.2.places (fun pl => pl.stats.count) ∧
      p.2.stats.area = sumBy p.2.places (fun pl => pl.stats.area) := by
  have hall := countryAdd_foldRecs [] rs (by simp) (n, c) (alookup_mem h)
  obtain ⟨h1, h2, h3⟩ := hall
  exact ⟨h1, h2, fun p hp => h3 p hp⟩

theorem c2_additivity_witness :
    c2node.stats.count = sumBy c2node.regions (fun reg => reg.stats.count) ∧
    c2node.stats.area = sumBy c2node.regions (fun reg => reg.stats.area) ∧
    ∀ p ∈ c2node.regions,
      p.2.stats.count = sumBy p.2.places (fun pl => pl.stats.count) ∧
      p.2.stats.area = sumBy p.2.places (fun pl => pl.stats.area) :=
  c2_additivity c2rs "Chile" c2node rfl

theorem c1_update_node_correct_witness :
    (update_node initStats (some 2) (some 3) (some 5)).area = initStats.area + 5 ∧
    (update_node initStats (some 2) (some 3) Option.none).area = initStats.area ∧
    (update_node initStats (some 2) (some 3) (some 5)).has_center =
      initStats.has_center + 1 ∧
    (update_node initStats Option.none (some 3) (some 5)).bbox = initStats.bbox :=
  ⟨(c1_update_node_correct initStats (some 2) (some 3) (some 5)).2.1 5 rfl,
   (c1_update_node_correct initStats (some 2) (some 3) Option.none).2.2.1 rfl,
   ((c1_update_node_correct initStats (some 2) (some 3) (some 5)).2.2.2.1 2 3 rfl rfl).1,
   ((c1_update_node_correct initStats Option.none (some 3) (some 5)).2.2.2.2
     (Or.inl rfl)).2.2.2⟩

/-! The tree-wide statistics invariant machinery. -/

theorem statsInv_init : statsInv initStats := by
  simp [statsInv, initStats]

theorem statsInv_update (s : Stats) (lat lng area : Option ℚ) (h : statsInv s) :
    statsInv (update_node s lat lng area) := by
  obtain ⟨h1, h2⟩ := h
  rcases lat with _ | la
  · obtain ⟨hh, _, _, hb⟩ := update_node_missing s Option.none lng area (Or.inl rfl)
    refine ⟨?_, ?_⟩
    · rw [update_node_count, hh]
      omega
    · rw [hb, hh]
      exact h2
  · rcases lng with _ | ln
    · obtain ⟨hh, _, _, hb⟩ :=
        update_node_missing s (some la) Option.none area (Or.inr rfl)
      refine ⟨?_, ?_⟩
      · rw [update_node_count, hh]
        omega
      · rw [hb, hh]
        exact h2
    · obtain ⟨hh, _, _, hb⟩ := update_node_both s la ln area
      refine ⟨?_, ?_⟩
      · rw [update_node_count, hh]
        omega
      · rw [hb, hh]
        simp

theorem placeAll_updatePlace (P : Stats → Prop) (hinit : P initStats)
    (hupd : ∀ s lat lng area, P s → P (update_node s lat lng area))
    (places : List (String × PlaceNode)) (r : Record)
    (h : ∀ w ∈ places, P w.2.stats) :
    ∀ w ∈ updatePlace places r, P w.2.stats := by
  intro w hw
  simp only [updatePlace] at hw
  rcases mem_upsert hw with hmem | hpe
  · exact h w hmem
  · subst hpe
    cases hl : alookup places r.place with
    | none =>
        exact hupd _ _ _ _ hinit
    | some pl =>
        exact hupd _ _ _ _ (h (r.place, pl) (alookup_mem hl))

theorem regionAll_updateRegion (P : Stats → Prop) (hinit : P initStats)
    (hupd : ∀ s lat lng area, P s → P (update_node s lat lng area))
    (regions : List (String × RegionNode)) (r : Record)
    (h : ∀ q ∈ regions, P q.2.stats ∧ ∀ w ∈ q.2.places, P w.2.stats) :
    ∀ q ∈ updateRegion regions r, P q.2.stats ∧ ∀ w ∈ q.2.places, P w.2.stats := by
  intro q hq
  simp only [updateRegion] at hq
  rcases mem_upsert hq with hmem | hpe
  · exact h q hmem
  · subst hpe
    cases hl : alookup regions r.region with
    | none =>
        exact ⟨hupd _ _ _ _ hinit,
          placeAll_updatePlace P hinit hupd _ r (by simp [newRegion])⟩
    | some reg =>
        obtain ⟨hs, hps⟩ := h (r.region, reg) (alookup_mem hl)
        exact ⟨hupd _ _ _ _ hs, placeAll_updatePlace P hinit hupd _ r hps⟩

theorem treeAllStats_foldRecord (P : Stats → Prop) (hinit : P initStats)
    (hupd : ∀ s lat lng area, P s → P (update_node s lat lng area))
    (st : CMap) (r : Record) (h : treeAllStats P st) :
    treeAllStats P (foldRecord st r) := by
  intro p hp
  simp only [foldRecord] at hp
  rcases mem_upsert hp with hmem | hpe
  · exact h p hmem
  · subst hpe
    cases hl : alookup st r.country with
    | none =>
        exact ⟨hupd _ _ _ _ hinit,
          regionAll_updateRegion P hinit hupd _ r (by simp [newCountry])⟩
    | some c =>
        obtain ⟨hs, hrs⟩ := h (r.country, c) (alookup_mem hl)
        exact ⟨hupd _ _ _ _ hs, regionAll_updateRegion P hinit hupd _ r hrs⟩

theorem treeAllStats_foldRecs (P : Stats → Prop) (hinit : P initStats)
    (hupd : ∀ s lat lng area, P s → P (update_node s lat lng area))
    (st : CMap) (rs : List Record) (h : treeAllStats P st) :
    treeAllStats P (foldRecs st rs) := by
  induction rs generalizing st with
  | nil => simpa [foldRecs] using h
  | cons r rest ih =>
      intro p hp
      exact ih (foldRecord st r) (treeAllStats_foldRecord P hinit hupd st r h) p
        (by simpa [foldRecs] using hp)

theorem treeAllStats_foldAll (P : Stats → Prop) (hinit : P initStats)
    (hupd : ∀ s lat lng area, P s → P (update_node s lat lng area))
    (rs : List Record) : treeAllStats P (foldAll rs) :=
  treeAllStats_foldRecs P hinit hupd [] rs (by simp [treeAllStats])

/-- C7: for every node at every point of the fold (any stream `rs`, and
hence any prefix of a longer stream), `count ≥ has_center`, and the bbox is
present iff `has_center > 0` — i.e. iff a record carrying both coordinates
has been folded into that node. -/
theorem c7_count_bbox_invariant (rs : List Record) :
    ∀ p ∈ foldAll rs,
      (p.2.stats.has_center ≤ p.2.stats.count ∧
        (p.2.stats.bbox.isSome ↔ 0 < p.2.stats.has_center)) ∧
      ∀ q ∈ p.2.regions,
        (q.2.stats.has_center ≤ q.2.stats.count ∧
          (q.2.stats.bbox.isSome ↔ 0 < q.2.stats.has_center)) ∧
        ∀ w ∈ q.2.places,
          w.2.stats.has_center ≤ w.2.stats.count ∧
          (w.2.stats.bbox.isSome ↔ 0 < w.2.stats.has_center) :=
  treeAllStats_foldAll statsInv statsInv_init statsInv_update rs

theorem c7_count_bbox_invariant_witness :
    (c7node.stats.has_center ≤ c7node.stats.count ∧
      (c7node.stats.bbox.isSome ↔ 0 < c7node.stats.has_center)) ∧
    ∀ q ∈ c7node.regions,
      (q.2.stats.has_center ≤ q.2.stats.count ∧
        (q.2.stats.bbox.isSome ↔ 0 < q.2.stats.has_center)) ∧
      ∀ w ∈ q.2.places,
        w.2.stats.has_center ≤ w.2.stats.count ∧
        (w.2.stats.bbox.isSome ↔ 0 < w.2.stats.has_center) :=
  c7_count_bbox_invariant c7rs ("A", c7node) (alookup_mem rfl)

theorem serOK_of_statsInv (name : String) (s : Stats) (h : statsInv s) :
    serOK name s := by
  obtain ⟨-, hb⟩ := h
  have hcenter : ((serStats name s).center ≠ Option.none ↔ 0 < s.has_center) := by
    by_cases hc : s.has_center = 0
    · simp [serStats, hc]
    · simp [serStats, hc, Nat.pos_of_ne_zero hc]
  refine ⟨hcenter, ?_, ?_, ?_⟩
  · intro hc
    have hne : s.has_center ≠ 0 := Nat.pos_iff_ne_zero.mp hc
    simp [serStats, hne]
  · rw [← hb]
    cases hbb : s.bbox with
    | none => simp [serStats, hbb]
    | some q =>
        obtain ⟨a, b, c, d⟩ := q
        simp [serStats, hbb]
  · intro a b c d hbb
    simp [serStats, hbb]

/-- C10: for every node produced by the fold, the serializer emits `center`
iff `has_center > 0`, and then as `[round6 (sumLng/n), round6 (sumLat/n)]`;
it emits `bbox` iff `has_center > 0`, i.e. iff the node received at least
one coordinate pair, with each of the four components rounded to 6 decimal
digits.  The equations tie `serializeCountry`/`serializeRegion`/
`serializePlace` to the shared per-node emission `serStats`. -/
theorem c10_serializer_fields (rs : List Record) :
    ∀ p ∈ foldAll rs,
      ((serializeCountry p.2).base = serStats p.2.name p.2.stats ∧
        serOK p.2.name p.2.stats) ∧
      ∀ q ∈ p.2.regions,
        ((serializeRegion q.2).base = serStats q.2.name q.2.stats ∧
          serOK q.2.name q.2.stats) ∧
        ∀ w ∈ q.2.places,
          serializePlace w.2 = serStats w.2.name w.2.stats ∧
          serOK w.2.name w.2.stats := by
  have hall := treeAllStats_foldAll statsInv statsInv_init statsInv_update rs
  intro p hp
  obtain ⟨h1, h2⟩ := hall p hp
  refine ⟨⟨rfl, serOK_of_statsInv _ _ h1⟩, ?_⟩
  intro q hq
  obtain ⟨h3, h4⟩ := h2 q hq
  exact ⟨⟨rfl, serOK_of_statsInv _ _ h3⟩,
    fun w hw => ⟨rfl, serOK_of_statsInv _ _ (h4 w hw)⟩⟩

theorem c10_serializer_fields_witness :
    ((serializeCountry c10node).base = serStats c10node.name c10node.stats ∧
      serOK c10node.name c10node.stats) ∧
    ∀ q ∈ c10node.regions,
      ((serializeRegion q.2).base = serStats q.2.name q.2.stats ∧
        serOK q.2.name q.2.stats) ∧
      ∀ w ∈ q.2.places,
        serializePlace w.2 = serStats w.2.name w.2.stats ∧
        serOK w.2.name w.2.stats :=
  c10_serializer_fields c7rs ("A", c10node) (alookup_mem rfl)

/-- C9: a corrupt tile is skipped entirely and processing continues: the
result over an archive containing one corrupt tile is exactly the result
over the same archive without it (so the aggregate differs only by the
omission of that tile's features), and no exception arises from it — both
sides are the same value of the same (total) function, error-free whenever
the rest of the archive is. -/
theorem c9_corrupt_tile_skipped (st : CMap) (pre post : List Tile) :
    buildTiles st (pre ++ Tile.corrupt :: post) = buildTiles st (pre ++ post) := by
  induction pre generalizing st with
  | nil => simp [buildTiles, foldTile]
  | cons t ts ih =>
      simp only [List.cons_append, buildTiles]
      cases foldTile st t with
      | error e => rfl
      | ok st2 => exact ih st2

/-! The normaliser's behaviour on success and failure. -/

theorem normalize_ok_fields (props : Props) (r : Record) (h : normalize props = .ok r) :
    nameField props ["country"] "Sin país" = .ok r.country ∧
    nameField props ["region", "district"] "Sin región" = .ok r.region ∧
    nameField props ["place", "label"] "Sin lugar" = .ok r.place ∧
    r.lat = pyFloat (pyOr (pget props "centroid_lat") (pget props "lat")) ∧
    r.lng = pyFloat (pyOr (pget props "centroid_lng") (pget props "lng")) ∧
    r.area = pyFloat (pyOr (pget props "area") (pget props "area_ha")) := by
  unfold normalize at h
  cases hc : nameField props ["country"] "Sin país" with
  | error e =>
      rw [hc] at h
      exact Except.noConfusion h
  | ok cn =>
      rw [hc] at h
      cases hr : nameField props ["region", "district"] "Sin región" with
      | error e =>
          rw [hr] at h
          exact Except.noConfusion h
      | ok rn =>
          rw [hr] at h
          cases hp : nameField props ["place", "label"] "Sin lugar" with
          | error e =>
              rw [hp] at h
              exact Except.noConfusion h
          | ok pn =>
              rw [hp] at h
              have h2 : (Except.ok (Record.mk cn rn pn
                  (pyFloat (pyOr (pget props "centroid_lat") (pget props "lat")))
                  (pyFloat (pyOr (pget props "centroid_lng") (pget props "lng")))
                  (pyFloat (pyOr (pget props "area") (pget props "area_ha"))))
                    : Except PyErr Record) = Except.ok r := h
              injection h2 with h3
              subst h3
              exact ⟨rfl, rfl, rfl, rfl, rfl, rfl⟩

theorem pyOr_str_of_strOrFalsy (v : PyVal) (h : strOrFalsy v = true) (s : String) :
    ∃ s2, pyOr v (.str s) = .str s2 := by
  cases v with
  | str s2 =>
      by_cases ht : truthy (.str s2)
      · exact ⟨s2, by simp [pyOr, ht]⟩
      · exact ⟨s, by simp [pyOr, ht]⟩
  | none => exact ⟨s, by simp [pyOr, truthy]⟩
  | int n =>
      have ht : truthy (.int n) = false := by simpa [strOrFalsy] using h
      exact ⟨s, by simp [pyOr, ht]⟩
  | float q =>
      have ht : truthy (.float q) = false := by simpa [strOrFalsy] using h
      exact ⟨s, by simp [pyOr, ht]⟩
  | bool b =>
      have ht : truthy (.bool b) = false := by simpa [strOrFalsy] using h
      exact ⟨s, by simp [pyOr, ht]⟩

theorem foldr_pyOr_str (props : Props) (keys : List String)
    (h : ∀ k ∈ keys, strOrFalsy (pget props k) = true) :
    ∃ s, (keys.map (pget props)).foldr pyOr (.str "") = .str s := by
  induction keys with
  | nil => exact ⟨"", rfl⟩
  | cons k ks ih =>
      obtain ⟨s, hs⟩ := ih (fun k2 hk2 => h k2 (List.mem_cons_of_mem _ hk2))
      rw [List.map_cons, List.foldr_cons, hs]
      exact pyOr_str_of_strOrFalsy _ (h k (List.mem_cons_self _ _)) s

theorem nameField_ok (props : Props) (keys : List String) (fallback : String)
    (h : ∀ k ∈ keys, strOrFalsy (pget props k) = true) :
    ∃ s, nameField props keys fallback = .ok s := by
  obtain ⟨s, hs⟩ := foldr_pyOr_str props keys h
  refine ⟨if pyStripString s = "" then fallback else pyStripString s, ?_⟩
  unfold nameField
  rw [hs]
  rfl

/-- C4 counterexample: a raw property mapping with a truthy non-string name
value makes the normaliser raise (`.strip()` on an `int`), refuting "never
raises for any raw property mapping". -/
theorem c4_counterexample :
    normalize [("country", PyVal.int 5)] = .error .attributeError := rfl

/-- C4 (amended): the normaliser never raises provided every name-candidate
value (`country`, `region`, `district`, `place`, `label`) is a string or
falsy; numeric fields and non-candidate keys never cause a raise, malformed
values degrading to absent fields or fallback sentinel names.  (A truthy
non-string name value raises `AttributeError`, per the counterexample.) -/
theorem c4_normalizer_no_raise (props : Props)
    (h : ∀ k ∈ ["country", "region", "district", "place", "label"],
      strOrFalsy (pget props k) = true) :
    ∃ r, normalize props = .ok r := by
  obtain ⟨s1, h1⟩ := nameField_ok props ["country"] "Sin país" (by
    intro k hk
    simp only [List.mem_singleton] at hk
    subst hk
    exact h "country" (by simp))
  obtain ⟨s2, h2⟩ := nameField_ok props ["region", "district"] "Sin región" (by
    intro k hk
    simp only [List.mem_cons, List.mem_singleton, List.not_mem_nil, or_false] at hk
    rcases hk with rfl | rfl
    · exact h "region" (by simp)
    · exact h "district" (by simp))
  obtain ⟨s3, h3⟩ := nameField_ok props ["place", "label"] "Sin lugar" (by
    intro k hk
    simp only [List.mem_cons, List.mem_singleton, List.not_mem_nil, or_false] at hk
    rcases hk with rfl | rfl
    · exact h "place" (by simp)
    · exact h "label" (by simp))
  refine ⟨⟨s1, s2, s3,
    pyFloat (pyOr (pget props "centroid_lat") (pget props "lat")),
    pyFloat (pyOr (pget props "centroid_lng") (pget props "lng")),
    pyFloat (pyOr (pget props "area") (pget props "area_ha"))⟩, ?_⟩
  unfold normalize
  rw [h1, h2, h3]
  rfl

theorem c4_normalizer_no_raise_witness :
    (∀ k ∈ ["country", "region", "district", "place", "label"],
      strOrFalsy (pget c4wprops k) = true) ∧
    ∃ r, normalize c4wprops = .ok r :=
  ⟨by decide, c4_normalizer_no_raise c4wprops (by decide)⟩

/-- C5 counterexample: in both mappings the earlier candidate key
`centroid_lat` is present (with the falsy value `0`), yet the normalised
`lat` differs with the later key `lat` — so the later candidate IS
consulted, and the result (5) is not the coercion of the first present
candidate (0).  Refutes "accepts the value of the first present candidate
key / later candidate keys are not consulted". -/
theorem c5_counterexample :
    alookup c5propsA "centroid_lat" = some (PyVal.int 0) ∧
    alookup c5propsB "centroid_lat" = some (PyVal.int 0) ∧
    (normalize c5propsA).toOption.map Record.lat = some (some 5) ∧
    (normalize c5propsB).toOption.map Record.lat = some (some 7) ∧
    specNumField c5propsA ["centroid_lat", "lat"] = some 0 ∧
    (5 : ℚ) ≠ 0 :=
  ⟨rfl, rfl, rfl, rfl, rfl, by norm_num⟩

/-- C5 (amended): for the numeric fields the normaliser takes the first
candidate whose value is truthy — a present but falsy earlier candidate
(such as `0`) is skipped in favour of the later candidate — attempts
numeric coercion on the chosen value, and records the field as absent on
any coercion failure rather than raising. -/
theorem c5_numeric_truthy_chain (props : Props) (r : Record)
    (h : normalize props = .ok r) :
    ((truthy (pget props "centroid_lat") = true →
        r.lat = pyFloat (pget props "centroid_lat")) ∧
      (truthy (pget props "centroid_lat") = false →
        r.lat = pyFloat (pget props "lat")) ∧
      (pyFloat (pyOr (pget props "centroid_lat") (pget props "lat")) = Option.none →
        r.lat = Option.none)) ∧
    ((truthy (pget props "centroid_lng") = true →
        r.lng = pyFloat (pget props "centroid_lng")) ∧
      (truthy (pget props "centroid_lng") = false →
        r.lng = pyFloat (pget props "lng")) ∧
      (pyFloat (pyOr (pget props "centroid_lng") (pget props "lng")) = Option.none →
        r.lng = Option.none)) ∧
    ((truthy (pget props "area") = true →
        r.area = pyFloat (pget props "area")) ∧
      (truthy (pget props "area") = false →
        r.area = pyFloat (pget props "area_ha")) ∧
      (pyFloat (pyOr (pget props "area") (pget props "area_ha")) = Option.none →
        r.area = Option.none)) := by
  obtain ⟨-, -, -, hlat, hlng, harea⟩ := normalize_ok_fields props r h
  refine ⟨⟨?_, ?_, ?_⟩, ⟨?_, ?_, ?_⟩, ⟨?_, ?_, ?_⟩⟩
  · intro ht
    rw [hlat]
    simp [pyOr, ht]
  · intro ht
    rw [hlat]
    simp [pyOr, ht]
  · intro h0
    rw [hlat, h0]
  · intro ht
    rw [hlng]
    simp [pyOr, ht]
  · intro ht
    rw [hlng]
    simp [pyOr, ht]
  · intro h0
    rw [hlng, h0]
  · intro ht
    rw [harea]
    simp [pyOr, ht]
  · intro ht
    rw [harea]
    simp [pyOr, ht]
  · intro h0
    rw [harea, h0]

theorem c5_numeric_truthy_chain_witness :
    c5recA.lat = pyFloat (pget c5propsA "lat") :=
  ((c5_numeric_truthy_chain c5propsA c5recA rfl).1).2.1 rfl

/-- C3 counterexample: a feature naming a country but supplying no region
still increments the country's count, but a region node IS created for it —
the country's child mapping gains the fallback entry "Sin región" on
account of that feature, refuting "no region node is created for it". -/
theorem c3_counterexample :
    normalize c3props = .ok c3rec ∧
    alookup (foldAll [c3rec]) "X" = some c3country ∧
    c3country.stats.count = 1 ∧
    c3country.regions ≠ [] ∧
    alookup c3country.regions "Sin región" ≠ Option.none :=
  ⟨rfl, rfl, rfl, by decide, by decide⟩

/-- C3 (amended): for a feature whose raw properties name a country but have
no `region`/`district` key, folding its normalized record still increments
that country's count, and the country's child mapping gains (or updates) a
region node under the fallback sentinel "Sin región", which receives the
same update. -/
theorem c3_fallback_region (props : Props) (r : Record)
    (h1 : alookup props "region" = Option.none)
    (h2 : alookup props "district" = Option.none)
    (h : normalize props = .ok r) :
    r.region = "Sin región" ∧
    ∃ c, alookup (foldAll [r]) r.country = some c ∧
      c.stats.count = 1 ∧
      ∃ reg, alookup c.regions "Sin región" = some reg ∧ reg.stats.count = 1 := by
  obtain ⟨-, hreg, -, -, -, -⟩ := normalize_ok_fields props r h
  have hpr : pget props "region" = PyVal.none := by simp [pget, h1]
  have hpd : pget props "district" = PyVal.none := by simp [pget, h2]
  have hchain : ((["region", "district"].map (pget props)).foldr pyOr (.str ""))
      = .str "" := by
    rw [List.map_cons, List.map_cons, List.map_nil, hpr, hpd]
    rfl
  have hfall : r.region = "Sin región" := by
    unfold nameField at hreg
    rw [hchain] at hreg
    have h4 : (Except.ok "Sin región" : Except PyErr String) = .ok r.region := hreg
    injection h4 with h5
    exact h5.symm
  refine ⟨hfall, countryUpd Option.none r, ?_, ?_, regionUpd Option.none r, ?_, ?_⟩
  · simp [foldAll, foldRecs, foldRecord, alookup, upsert]
  · simp [countryUpd, update_node_count, newCountry, initStats]
  · simp [countryUpd, updateRegion, newCountry, alookup, upsert, hfall]
  · simp [regionUpd, update_node_count, newRegion, initStats]

theorem c3_fallback_region_witness :
    c3wrec.region = "Sin región" ∧
    ∃ c, alookup (foldAll [c3wrec]) c3wrec.country = some c ∧
      c.stats.count = 1 ∧
      ∃ reg, alookup c.regions "Sin región" = some reg ∧ reg.stats.count = 1 :=
  c3_fallback_region c3wprops c3wrec rfl rfl rfl

/-! Per-node area accounting (C6). -/

theorem alookup_foldRecord_self (st : CMap) (r : Record) :
    alookup (foldRecord st r) r.country =
      some (countryUpd (alookup st r.country) r) := by
  simp [foldRecord, alookup_upsert_self]

theorem alookup_foldRecord_ne (st : CMap) (r : Record) (n : String)
    (h : r.country ≠ n) : alookup (foldRecord st r) n = alookup st n := by
  simp [foldRecord, alookup_upsert_ne _ _ _ _ h]

theorem alookup_updateRegion_self (regions : List (String × RegionNode)) (r : Record) :
    alookup (updateRegion regions r) r.region =
      some (regionUpd (alookup regions r.region) r) := by
  simp [updateRegion, alookup_upsert_self]

theorem alookup_updateRegion_ne (regions : List (String × RegionNode)) (r : Record)
    (m : String) (h : r.region ≠ m) :
    alookup (updateRegion regions r) m = alookup regions m := by
  simp [updateRegion, alookup_upsert_ne _ _ _ _ h]

theorem alookup_updatePlace_self (places : List (String × PlaceNode)) (r : Record) :
    alookup (updatePlace places r) r.place =
      some (placeUpd (alookup places r.place) r) := by
  simp [updatePlace, alookup_upsert_self]

theorem alookup_updatePlace_ne (places : List (String × PlaceNode)) (r : Record)
    (q : String) (h : r.place ≠ q) :
    alookup (updatePlace places r) q = alookup places q := by
  simp [updatePlace, alookup_upsert_ne _ _ _ _ h]

theorem pAreaIn_updatePlace (places : List (String × PlaceNode)) (r : Record)
    (q : String) :
    pAreaIn (updatePlace places r) q =
      pAreaIn places q + (if r.place = q then areaDelta r.area else 0) := by
  by_cases h : r.place = q
  · subst h
    simp only [pAreaIn, alookup_updatePlace_self]
    cases hl : alookup places r.place with
    | none => simp [placeUpd, update_node_area, newPlace, initStats]
    | some pl => simp [placeUpd, update_node_area]
  · simp only [pAreaIn, alookup_updatePlace_ne places r q h]
    simp [h]

theorem rAreaIn_updateRegion (regions : List (String × RegionNode)) (r : Record)
    (m : String) :
    rAreaIn (updateRegion regions r) m =
      rAreaIn regions m + (if r.region = m then areaDelta r.area else 0) := by
  by_cases h : r.region = m
  · subst h
    simp only [rAreaIn, alookup_updateRegion_self]
    cases hl : alookup regions r.region with
    | none => simp [regionUpd, update_node_area, newRegion, initStats]
    | some reg => simp [regionUpd, update_node_area]
  · simp only [rAreaIn, alookup_updateRegion_ne regions r m h]
    simp [h]

theorem rpAreaIn_updateRegion (regions : List (String × RegionNode)) (r : Record)
    (m q : String) :
    rpAreaIn (updateRegion regions r) m q =
      rpAreaIn regions m q +
        (if r.region = m ∧ r.place = q then areaDelta r.area else 0) := by
  by_cases h : r.region = m
  · subst h
    simp only [rpAreaIn, alookup_updateRegion_self]
    cases hl : alookup regions r.region with
    | none =>
        simp only [Option.map_none', Option.getD_none, Option.map_some', Option.getD_some]
        rw [show (regionUpd Option.none r).places
              = updatePlace (newRegion r.region).places r from rfl]
        rw [pAreaIn_updatePlace]
        simp [pAreaIn, newRegion, alookup]
    | some reg =>
        simp only [Option.map_some', Option.getD_some]
        rw [show (regionUpd (some reg) r).places = updatePlace reg.places r from rfl]
        rw [pAreaIn_updatePlace]
        simp
  · simp only [rpAreaIn, alookup_updateRegion_ne regions r m h]
    simp [h]

theorem areaR_eq (st : CMap) (n m : String) :
    areaR st n m = ((alookup st n).map (fun c => rAreaIn c.regions m)).getD 0 := by
  cases h : alookup st n with
  | none => simp [areaR, h]
  | some c => simp [areaR, h, rAreaIn]

theorem areaP_eq (st : CMap) (n m q : String) :
    areaP st n m q = ((alookup st n).map (fun c => rpAreaIn c.regions m q)).getD 0 := by
  cases h : alookup st n with
  | none => simp [areaP, h]
  | some c =>
      cases h2 : alookup c.regions m with
      | none => simp [areaP, h, h2, rpAreaIn]
      | some reg => simp [areaP, h, h2, rpAreaIn, pAreaIn]

theorem areaC_foldRecord (st : CMap) (r : Record) (n : String) :
    areaC (foldRecord st r) n =
      areaC st n + (if r.country = n then areaDelta r.area else 0) := by
  by_cases h : r.country = n
  · subst h
    simp only [areaC, alookup_foldRecord_self]
    cases hl : alookup st r.country with
    | none => simp [countryUpd, update_node_area, newCountry, initStats]
    | some c => simp [countryUpd, update_node_area]
  · simp only [areaC, alookup_foldRecord_ne st r n h]
    simp [h]

theorem areaR_foldRecord (st : CMap) (r : Record) (n m : String) :
    areaR (foldRecord st r) n m =
      areaR st n m + (if r.country = n ∧ r.region = m then areaDelta r.area else 0) := by
  by_cases h : r.country = n
  · subst h
    rw [areaR_eq, areaR_eq, alookup_foldRecord_self]
    cases hl : alookup st r.country with
    | none =>
        simp only [Option.map_none', Option.getD_none, Option.map_some', Option.getD_some]
        rw [show (countryUpd Option.none r).regions
              = updateRegion (newCountry r.country).regions r from rfl]
        rw [rAreaIn_updateRegion]
        simp [rAreaIn, newCountry, alookup]
    | some c =>
        simp only [Option.map_some', Option.getD_some]
        rw [show (countryUpd (some c) r).regions = updateRegion c.regions r from rfl]
        rw [rAreaIn_updateRegion]
        simp
  · rw [areaR_eq, areaR_eq, alookup_foldRecord_ne st r n h]
    simp [h]

theorem areaP_foldRecord (st : CMap) (r : Record) (n m q : String) :
    areaP (foldRecord st r) n m q =
      areaP st n m q +
        (if r.country = n ∧ r.region = m ∧ r.place = q then areaDelta r.area else 0) := by
  by_cases h : r.country = n
  · subst h
    rw [areaP_eq, areaP_eq, alookup_foldRecord_self]
    cases hl : alookup st r.country with
    | none =>
        simp only [Option.map_none', Option.getD_none, Option.map_some', Option.getD_some]
        rw [show (countryUpd Option.none r).regions
              = updateRegion (newCountry r.country).regions r from rfl]
        rw [rpAreaIn_updateRegion]
        simp [rpAreaIn, newCountry, alookup]
    | some c =>
        simp only [Option.map_some', Option.getD_some]
        rw [show (countryUpd (some c) r).regions = updateRegion c.regions r from rfl]
        rw [rpAreaIn_updateRegion]
        simp
  · rw [areaP_eq, areaP_eq, alookup_foldRecord_ne st r n h]
    simp [h]

theorem areaC_foldRecs (st : CMap) (rs : List Record) (n : String) :
    areaC (foldRecs st rs) n =
      areaC st n + areaSum (fun r => decide (r.country = n)) rs := by
  induction rs generalizing st with
  | nil => simp [foldRecs, areaSum]
  | cons r rest ih =>
      show areaC (foldRecs (foldRecord st r) rest) n = _
      rw [ih, areaC_foldRecord]
      by_cases h : r.country = n <;> simp [areaSum, h, add_assoc]

theorem areaR_foldRecs (st : CMap) (rs : List Record) (n m : String) :
    areaR (foldRecs st rs) n m =
      areaR st n m + areaSum (fun r => decide (r.country = n ∧ r.region = m)) rs := by
  induction rs generalizing st with
  | nil => simp [foldRecs, areaSum]
  | cons r rest ih =>
      show areaR (foldRecs (foldRecord st r) rest) n m = _
      rw [ih, areaR_foldRecord]
      by_cases h : r.country = n ∧ r.region = m <;> simp [areaSum, h, add_assoc]

theorem areaP_foldRecs (st : CMap) (rs : List Record) (n m q : String) :
    areaP (foldRecs st rs) n m q =
      areaP st n m q +
        areaSum (fun r => decide (r.country = n ∧ r.region = m ∧ r.place = q)) rs := by
  induction rs generalizing st with
  | nil => simp [foldRecs, areaSum]
  | cons r rest ih =>
      show areaP (foldRecs (foldRecord st r) rest) n m q = _
      rw [ih, areaP_foldRecord]
      by_cases h : r.country = n ∧ r.region = m ∧ r.place = q <;>
        simp [areaSum, h, add_assoc]

theorem areaSum_eq_filter (P : Record → Bool) (rs : List Record) :
    areaSum P rs = ((rs.filter P).filterMap (fun r => r.area)).sum := by
  induction rs with
  | nil => rfl
  | cons r rest ih =>
      cases hp : P r
      · simp [areaSum, hp, ih]
      · cases ha : r.area with
        | none => simp [areaSum, hp, ha, ih, areaDelta]
        | some a => simp [areaSum, hp, ha, ih, areaDelta]

/-- C6 counterexample: the code does not enforce non-negativity — a single
record supplying area `-1` (as produced by the normalizer from a raw
property `area = -1`) yields a country node whose area is negative,
refuting "for every node after folding any stream of records, area ≥ 0". -/
theorem c6_counterexample :
    normalize c6props = .ok c6rec ∧
    alookup (foldAll [c6rec]) "A" = some c6node ∧
    c6node.stats.area < 0 :=
  ⟨rfl, rfl, by
    have h : c6node.stats.area = 0 + (-1 : ℚ) := rfl
    rw [h]
    norm_num⟩

/-- C6 (amended): for every node (at all three levels) after folding any
stream of records, the node's area equals the sum of the area values
supplied by exactly the records folded into that node (exact in the
rational model of float arithmetic); consequently area ≥ 0 whenever every
supplied area value is ≥ 0 — but a negative supplied area yields a
negative node area, as the counterexample shows. -/
theorem c6_area_sum_characterization (rs : List Record) :
    (∀ n c, alookup (foldAll rs) n = some c →
       c.stats.area =
         ((rs.filter (fun r => decide (r.country = n))).filterMap
           (fun r => r.area)).sum) ∧
    (∀ n c m reg, alookup (foldAll rs) n = some c →
       alookup c.regions m = some reg →
       reg.stats.area =
         ((rs.filter (fun r => decide (r.country = n ∧ r.region = m))).filterMap
           (fun r => r.area)).sum) ∧
    (∀ n c m reg q pl, alookup (foldAll rs) n = some c →
       alookup c.regions m = some reg → alookup reg.places q = some pl →
       pl.stats.area =
         ((rs.filter (fun r =>
             decide (r.country = n ∧ r.region = m ∧ r.place = q))).filterMap
           (fun r => r.area)).sum) ∧
    ((∀ r ∈ rs, ∀ a, r.area = some a → 0 ≤ a) →
      ∀ n c, alookup (foldAll rs) n = some c →
        0 ≤ c.stats.area ∧
        ∀ m reg, alookup c.regions m = some reg →
          0 ≤ reg.stats.area ∧
          ∀ q pl, alookup reg.places q = some pl → 0 ≤ pl.stats.area) := by
  have hC : ∀ n c, alookup (foldAll rs) n = some c →
      c.stats.area =
        ((rs.filter (fun r => decide (r.country = n))).filterMap
          (fun r => r.area)).sum := by
    intro n c hc
    have h0 := areaC_foldRecs [] rs n
    rw [← areaSum_eq_filter]
    rw [show foldAll rs = foldRecs [] rs from rfl] at hc
    simp only [areaC, hc, Option.map_some', Option.getD_some, alookup,
      Option.map_none', Option.getD_none, zero_add] at h0
    exact h0
  have hR : ∀ n c m reg, alookup (foldAll rs) n = some c →
      alookup c.regions m = some reg →
      reg.stats.area =
        ((rs.filter (fun r => decide (r.country = n ∧ r.region = m))).filterMap
          (fun r => r.area)).sum := by
    intro n c m reg hc hreg
    have h0 := areaR_foldRecs [] rs n m
    rw [← areaSum_eq_filter]
    rw [show foldAll rs = foldRecs [] rs from rfl] at hc
    rw [areaR_eq, areaR_eq] at h0
    simp only [hc, Option.map_some', Option.getD_some, alookup,
      Option.map_none', Option.getD_none, zero_add, rAreaIn, hreg] at h0
    exact h0
  have hP : ∀ n c m reg q pl, alookup (foldAll rs) n = some c →
      alookup c.regions m = some reg → alookup reg.places q = some pl →
      pl.stats.area =
        ((rs.filter (fun r =>
            decide (r.country = n ∧ r.region = m ∧ r.place = q))).filterMap
          (fun r => r.area)).sum := by
    intro n c m reg q pl hc hreg hpl
    have h0 := areaP_foldRecs [] rs n m q
    rw [← areaSum_eq_filter]
    rw [show foldAll rs = foldRecs [] rs from rfl] at hc
    rw [areaP_eq, areaP_eq] at h0
    simp only [hc, Option.map_some', Option.getD_some, alookup,
      Option.map_none', Option.getD_none, zero_add, rpAreaIn, hreg,
      pAreaIn, hpl] at h0
    exact h0
  have hnn : ∀ (P : Record → Bool),
      (∀ r ∈ rs, ∀ a, r.area = some a → 0 ≤ a) →
      0 ≤ ((rs.filter P).filterMap (fun r => r.area)).sum := by
    intro P hpos
    refine List.sum_nonneg ?_
    intro x hx
    rw [List.mem_filterMap] at hx
    obtain ⟨r0, hr0, hx2⟩ := hx
    exact hpos r0 (List.mem_of_mem_filter hr0) x hx2
  refine ⟨hC, hR, hP, ?_⟩
  intro hpos n c hc
  refine ⟨by rw [hC n c hc]; exact hnn _ hpos, ?_⟩
  intro m reg hreg
  refine ⟨by rw [hR n c m reg hc hreg]; exact hnn _ hpos, ?_⟩
  intro q pl hpl
  rw [hP n c m reg q pl hc hreg hpl]
  exact hnn _ hpos

theorem c6_area_sum_characterization_witness :
    c6node.stats.area =
      (([c6rec].filter (fun r => decide (r.country = "A"))).filterMap
        (fun r => r.area)).sum :=
  (c6_area_sum_characterization [c6rec]).1 "A" c6node rfl

/-! Key uniqueness through the fold, and serializer ordering (C8). -/

theorem mem_keys_upsert {α : Type} {l : List (String × α)} {k x : String} {v : α}
    (h : x ∈ (upsert l k v).map Prod.fst) : x ∈ l.map Prod.fst ∨ x = k := by
  rw [List.mem_map] at h
  obtain ⟨p, hp, rfl⟩ := h
  rcases mem_upsert hp with h2 | h2
  · exact Or.inl (List.mem_map_of_mem _ h2)
  · subst h2
    exact Or.inr rfl

theorem keysNodup_upsert {α : Type} (l : List (String × α)) (k : String) (v : α)
    (h : keysNodup l) : keysNodup (upsert l k v) := by
  induction l with
  | nil => simp [upsert, keysNodup]
  | cons hd tl ih =>
      obtain ⟨k1, v1⟩ := hd
      simp only [keysNodup, List.map_cons, List.nodup_cons] at h
      by_cases h1 : k1 = k
      · simp only [upsert, if_pos h1, keysNodup, List.map_cons, List.nodup_cons]
        exact h
      · simp only [upsert, if_neg h1, keysNodup, List.map_cons, List.nodup_cons]
        refine ⟨?_, ih h.2⟩
        intro hmem
        rcases mem_keys_upsert hmem with h2 | h2
        · exact h.1 h2
        · exact h1 h2

theorem treeKeysNodup_foldRecord (st : CMap) (r : Record)
    (h : treeKeysNodup st) : treeKeysNodup (foldRecord st r) := by
  obtain ⟨h1, h2⟩ := h
  refine ⟨keysNodup_upsert st r.country _ h1, ?_⟩
  intro p hp
  rcases mem_upsert hp with hmem | hpe
  · exact h2 p hmem
  · subst hpe
    have hbase : keysNodup (Option.getD (alookup st r.country)
        (newCountry r.country)).regions ∧
        ∀ q ∈ (Option.getD (alookup st r.country) (newCountry r.country)).regions,
          keysNodup q.2.places := by
      cases hl : alookup st r.country with
      | none => exact ⟨by simp [newCountry, keysNodup], by simp [newCountry]⟩
      | some c => exact h2 (r.country, c) (alookup_mem hl)
    refine ⟨keysNodup_upsert _ r.region _ hbase.1, ?_⟩
    intro q hq
    rcases mem_upsert hq with hmem2 | hpe2
    · exact hbase.2 q hmem2
    · subst hpe2
      have hplaces : keysNodup (Option.getD
          (alookup (Option.getD (alookup st r.country) (newCountry r.country)).regions
            r.region) (newRegion r.region)).places := by
        cases hl2 : alookup (Option.getD (alookup st r.country)
            (newCountry r.country)).regions r.region with
        | none => simp [newRegion, keysNodup]
        | some reg => exact hbase.2 (r.region, reg) (alookup_mem hl2)
      exact keysNodup_upsert _ r.place _ hplaces

theorem treeKeysNodup_foldRecs (st : CMap) (rs : List Record)
    (h : treeKeysNodup st) : treeKeysNodup (foldRecs st rs) := by
  induction rs generalizing st with
  | nil => simpa [foldRecs] using h
  | cons r rest ih => exact ih (foldRecord st r) (treeKeysNodup_foldRecord st r h)

theorem treeKeysNodup_foldAll (rs : List Record) : treeKeysNodup (foldAll rs) :=
  treeKeysNodup_foldRecs [] rs ⟨by simp [keysNodup], by simp⟩

theorem sortByKey_sorted {α : Type} (l : List (String × α)) :
    List.Sorted keyLE (sortByKey l) :=
  List.sorted_insertionSort keyLE l

theorem sortByKey_perm {α : Type} (l : List (String × α)) :
    List.Perm (sortByKey l) l :=
  List.perm_insertionSort keyLE l

theorem pairwise_keyLT_of_le_ne {α : Type} (l : List (String × α))
    (h1 : List.Pairwise keyLE l) (h2 : List.Pairwise (fun a b => a.1 ≠ b.1) l) :
    List.Pairwise keyLT l := by
  induction l with
  | nil => exact List.Pairwise.nil
  | cons x xs ih =>
      rw [List.pairwise_cons] at h1 h2 ⊢
      exact ⟨fun b hb => lt_of_le_of_ne (h1.1 b hb) (h2.1 b hb), ih h1.2 h2.2⟩

theorem sortByKey_sorted_lt {α : Type} (l : List (String × α)) (h : keysNodup l) :
    List.Sorted keyLT (sortByKey l) := by
  have hnd : keysNodup (sortByKey l) := by
    unfold keysNodup at h ⊢
    exact (((sortByKey_perm l).map Prod.fst).nodup_iff).mpr h
  refine pairwise_keyLT_of_le_ne _ (sortByKey_sorted l) ?_
  exact List.pairwise_map.mp hnd

theorem sortByKey_eq_of_perm {α : Type} (l1 l2 : List (String × α))
    (hp : List.Perm l1 l2) (h : keysNodup l1) : sortByKey l1 = sortByKey l2 := by
  have h2 : keysNodup l2 := ((hp.map Prod.fst).nodup_iff).mp h
  exact List.eq_of_perm_of_sorted
    ((sortByKey_perm l1).trans (hp.trans (sortByKey_perm l2).symm))
    (sortByKey_sorted_lt l1 h) (sortByKey_sorted_lt l2 h2)

theorem map_fst_map_pair {α β : Type} (l : List (String × α)) (f : α → β) :
    (l.map (fun q => (q.1, f q.2))).map Prod.fst = l.map Prod.fst := by
  simp [List.map_map, Function.comp]

theorem keys_map_pair_sorted {α β : Type} (l : List (String × α)) (f : α → β)
    (h : keysNodup l) :
    List.Sorted (fun a b => a < b)
      (((sortByKey l).map (fun q => (q.1, f q.2))).map Prod.fst) := by
  rw [map_fst_map_pair]
  exact List.Pairwise.map Prod.fst (fun a b hab => hab) (sortByKey_sorted_lt l h)

/-- C8: the serializer emits child mappings at every level (countries,
regions, places) in strictly ascending lexicographic (codepoint) order of
the name key, and its output is a function of the key-to-node mapping
alone — permuting the insertion order of the accumulator produces the
identical serialized document, so two runs of the pipeline over identical
input produce identical output. -/
theorem c8_sorted_deterministic :
    (∀ rs : List Record,
      List.Sorted (fun a b => a < b) ((serializeAll (foldAll rs)).map Prod.fst) ∧
      ∀ p ∈ serializeAll (foldAll rs),
        List.Sorted (fun a b => a < b) (p.2.regions.map Prod.fst) ∧
        ∀ q ∈ p.2.regions,
          List.Sorted (fun a b => a < b) (q.2.places.map Prod.fst)) ∧
    (∀ st1 st2 : CMap, List.Perm st1 st2 → keysNodup st1 →
      serializeAll st1 = serializeAll st2) := by
  constructor
  · intro rs
    obtain ⟨hnd1, hnd2⟩ := treeKeysNodup_foldAll rs
    constructor
    · exact keys_map_pair_sorted _ serializeCountry hnd1
    · intro p hp
      simp only [serializeAll, List.mem_map] at hp
      obtain ⟨q0, hq0, rfl⟩ := hp
      have hq0m : q0 ∈ foldAll rs := by
        have := (sortByKey_perm (foldAll rs)).mem_iff.mp hq0
        exact this
      obtain ⟨hndr, hndp⟩ := hnd2 q0 hq0m
      constructor
      · exact keys_map_pair_sorted _ serializeRegion hndr
      · intro q hq
        simp only [serializeCountry, List.mem_map] at hq
        obtain ⟨q1, hq1, rfl⟩ := hq
        have hq1m : q1 ∈ q0.2.regions := (sortByKey_perm q0.2.regions).mem_iff.mp hq1
        exact keys_map_pair_sorted _ serializePlace (hndp q1 hq1m)
  · intro st1 st2 hp hnd
    unfold serializeAll
    rw [sortByKey_eq_of_perm st1 st2 hp hnd]

theorem c8_sorted_deterministic_witness :
    List.Sorted (fun a b => a < b) ((serializeAll (foldAll c7rs)).map Prod.fst) ∧
    serializeAll c8st1 = serializeAll c8st2 :=
  ⟨(c8_sorted_deterministic.1 c7rs).1,
   c8_sorted_deterministic.2 c8st1 c8st2 (by decide)
     (by unfold keysNodup; decide)⟩

end Pond
